import Mathlib

/-!
Verification of the structure-based sequence-alignment pipeline
(`1_ce_align.py`, `2_seq_alignment.py`, `3_msa_generator.py`).

The three Python scripts are shallowly embedded below.  Python strings are
`String`; Python's code-point comparison, `int()` parsing, `str.upper()`,
`str.strip()`, `str.splitlines()`, `str.replace()` and dict insertion are
modelled by the `py...` functions of the first section.  PyMOL is the
external toolkit: a loaded session is a list of named objects, each a list
of atoms, and the two selection expressions used by stage 2 are modelled by
`withinCA` (PyMOL's `s1 and name CA within d of s2` keeps the CA atoms of
`s1` at distance at most `d` from some atom of `s2`).  Atom coordinates are
modelled as exact integer coordinates so that squared distances stay in
`Int`; no claim depends on the numeric representation of coordinates.
Python exceptions are `Except PyErr`; `sorted` with a key function is a
stable insertion sort whose comparator can raise `TypeError`, exactly as
Python's comparison of an `int` key with a `str` key does.
-/

/-- Python code-point comparison of two lists of characters
(lexicographic, as Python compares `str` values). -/
def listLtCh : List Char → List Char → Bool
  | [], [] => false
  | [], _ :: _ => true
  | _ :: _, [] => false
  | a :: as, b :: bs =>
    if a.toNat < b.toNat then true
    else if b.toNat < a.toNat then false
    else listLtCh as bs

/-- Python string comparison `x < y` (code-point lexicographic). -/
def strLtb (x y : String) : Bool := listLtCh x.data y.data

/-- Numeric value of a digit string, used by the model of Python `int()`. -/
def digitsToNat (l : List Char) : Nat := l.foldl (fun a c => a * 10 + (c.toNat - 48)) 0

/-- Model of Python `int(s)` on residue-identifier strings: an optional
sign followed by at least one digit parses, anything else raises
`ValueError` (modelled as `none`). -/
def pyInt? (s : String) : Option Int :=
  match s.data with
  | [] => none
  | '-' :: rest =>
    if rest.isEmpty then none
    else if rest.all Char.isDigit then some (-(digitsToNat rest : Int)) else none
  | '+' :: rest =>
    if rest.isEmpty then none
    else if rest.all Char.isDigit then some ((digitsToNat rest : Int)) else none
  | l => if l.all Char.isDigit then some ((digitsToNat l : Int)) else none

/-- Model of Python `str.upper()` (the residue codes are ASCII). -/
def pyUpper (s : String) : String := String.mk (s.data.map Char.toUpper)

/-- Python's ASCII whitespace characters, stripped by `str.strip()`. -/
def isPySpace (c : Char) : Bool :=
  c = ' ' || c = '\t' || c = '\n' || c = '\r' || c = '\x0b' || c = '\x0c'

/-- Model of Python `str.strip()`. -/
def pyStrip (s : String) : String :=
  String.mk (((s.data.dropWhile isPySpace).reverse.dropWhile isPySpace).reverse)

/-- Characters Python `str.splitlines()` treats as line breaks. -/
def isPyLineBreak (c : Char) : Bool :=
  c = '\n' || c = '\r' || c = '\x0b' || c = '\x0c' ||
  c = '\x1c' || c = '\x1d' || c = '\x1e' || c = '\x85' ||
  c = '\u2028' || c = '\u2029'

/-- Splitting a character list at `'\n'`; a terminal newline yields no
trailing empty line, exactly as Python's `splitlines` behaves on contents
whose only line-break character is `'\n'` (the only break character the
pipeline ever writes). -/
def splitLinesCh : List Char → List (List Char)
  | [] => []
  | c :: cs =>
    if c = '\n' then [] :: splitLinesCh cs
    else
      match splitLinesCh cs with
      | [] => [[c]]
      | l :: ls => (c :: l) :: ls

/-- Model of Python `str.splitlines()` for contents whose line breaks are
all `'\n'`. -/
def pySplitlines (s : String) : List String := (splitLinesCh s.data).map (fun l => String.mk l)

/-- Model of Python `''.join(parts)`. -/
def pyJoin : List String → String
  | [] => ""
  | x :: xs => x ++ pyJoin xs

/-- Model of Python `line.startswith(">")`: the first character is `'>'`. -/
def startsWithGt (s : String) : Bool := s.data.head? = some '>'

/-- Model of Python `line[1:]`. -/
def sTail (s : String) : String := String.mk s.data.tail

/-- Fuel-driven worker for `pyReplace`; the fuel starts at the length of
the source, which bounds the number of emitted source characters. -/
def pyReplaceGo (pat rep : List Char) : Nat → List Char → List Char
  | _, [] => []
  | 0, l => l
  | fuel + 1, c :: cs =>
    if pat.isPrefixOf (c :: cs) then
      rep ++ pyReplaceGo pat rep fuel ((c :: cs).drop pat.length)
    else
      c :: pyReplaceGo pat rep fuel cs

/-- Model of Python `s.replace(pat, rep)` for a non-empty pattern:
left-to-right, non-overlapping replacement of every occurrence. -/
def pyReplace (s pat rep : String) : String :=
  if pat.data.isEmpty then s
  else String.mk (pyReplaceGo pat.data rep.data s.data.length s.data)

/-- Association-list lookup (first match), the model of reading a Python
dict entry. -/
def lookupStr {α : Type} : List (String × α) → String → Option α
  | [], _ => none
  | (k, v) :: rest, key => if k = key then some v else lookupStr rest key

/-- Model of Python dict assignment `d[k] = v`: an existing key keeps its
position and gets the new value, a new key is appended (Python dicts are
insertion-ordered). -/
def dictInsert {α : Type} (d : List (String × α)) (k : String) (v : α) : List (String × α) :=
  if d.any (fun p => decide (p.1 = k)) then
    d.map (fun p => if p.1 = k then (k, v) else p)
  else d ++ [(k, v)]

deriving instance DecidableEq for Except

/-- Python exceptions that the embedded code can raise. -/
inductive PyErr where
  | typeError
deriving DecidableEq

/-- An atom of a loaded structure, as stage 2 reads it from a PyMOL model:
atom name, chain identifier, residue identifier (a string in PDB files),
residue name, and coordinates. -/
structure Atom where
  name : String
  chain : String
  resi : String
  resn : String
  x : Int
  y : Int
  z : Int
deriving DecidableEq

/-- The second component of the Python sort key in
`2_seq_alignment.py:sort_key`: `int(atom.resi)` when that parses, the raw
string otherwise. -/
def resKey (a : Atom) : Sum Int String :=
  match pyInt? a.resi with
  | some n => Sum.inl n
  | none => Sum.inr a.resi

/-- Whether the sort key of an atom is the integer kind. -/
def keyTy (a : Atom) : Bool :=
  match resKey a with
  | Sum.inl _ => true
  | Sum.inr _ => false

/-- Python comparison `sort_key x < sort_key y` on the tuples produced by
`sort_key`: equal chains compare the residue keys, and comparing an `int`
key with a `str` key raises `TypeError`, as Python does. -/
def ltAtomE (x y : Atom) : Except PyErr Bool :=
  if x.chain = y.chain then
    match resKey x, resKey y with
    | Sum.inl m, Sum.inl n => Except.ok (decide (m < n))
    | Sum.inr s, Sum.inr t => Except.ok (strLtb s t)
    | _, _ => Except.error PyErr.typeError
  else Except.ok (strLtb x.chain y.chain)

/-- Stable insertion of an atom into an already sorted list, propagating a
comparator exception. -/
def insertE (x : Atom) : List Atom → Except PyErr (List Atom)
  | [] => Except.ok [x]
  | y :: ys =>
    match ltAtomE x y with
    | Except.error e => Except.error e
    | Except.ok true => Except.ok (x :: y :: ys)
    | Except.ok false =>
      match insertE x ys with
      | Except.error e => Except.error e
      | Except.ok zs => Except.ok (y :: zs)

/-- Worker of the sort model: fold the input into a sorted accumulator. -/
def sortGo : List Atom → List Atom → Except PyErr (List Atom)
  | acc, [] => Except.ok acc
  | acc, x :: xs =>
    match insertE x acc with
    | Except.error e => Except.error e
    | Except.ok acc' => sortGo acc' xs

/-- Model of Python `sorted(atoms, key=sort_key)`: a stable sort that
raises `TypeError` when the comparator does.  On inputs where every needed
comparison is defined the result is the unique stable sorted order, the
one `sorted` returns. -/
def sortE (l : List Atom) : Except PyErr (List Atom) := sortGo [] l

/-- The fixed 20-entry three-letter to one-letter residue table of
`2_seq_alignment.py`. -/
def THREE_TO_ONE : List (String × Char) :=
  [("ALA", 'A'), ("ARG", 'R'), ("ASN", 'N'), ("ASP", 'D'), ("CYS", 'C'),
   ("GLU", 'E'), ("GLN", 'Q'), ("GLY", 'G'), ("HIS", 'H'), ("ILE", 'I'),
   ("LEU", 'L'), ("LYS", 'K'), ("MET", 'M'), ("PHE", 'F'), ("PRO", 'P'),
   ("SER", 'S'), ("THR", 'T'), ("TRP", 'W'), ("TYR", 'Y'), ("VAL", 'V')]

/-- Model of `THREE_TO_ONE.get(code, "X")`: table lookup with the unknown
marker as default. -/
def threeToOneGet (code : String) : Char := (lookupStr THREE_TO_ONE code).getD 'X'

/-- The fixed distance threshold of stage 2, in Ångström. -/
def distance_threshold : Int := 2

/-- Squared distance between two atoms. -/
def distSq (a b : Atom) : Int :=
  (a.x - b.x) * (a.x - b.x) + (a.y - b.y) * (a.y - b.y) + (a.z - b.z) * (a.z - b.z)

/-- Model of the PyMOL selection `obj and name CA within cutoff of other`:
the CA atoms of `obj` whose distance to some atom of `other` is at most
`cutoff`, compared through squares to stay in `Int`. -/
def withinCA (obj other : List Atom) (cutoff : Int) : List Atom :=
  obj.filter (fun a =>
    decide (a.name = "CA") && other.any (fun b => decide (distSq a b ≤ cutoff * cutoff)))

/-- A loaded PyMOL session: the named objects in load order. -/
def Session : Type := List (String × List Atom)

/-- Model of looking an object up in the session. -/
def getObj (s : Session) (n : String) : Option (List Atom) := lookupStr s n

/-- The one-letter symbol stage 2 emits for an atom: the fixed-table
lookup applied to the upper-cased residue name
(`2_seq_alignment.py` lines 115-118). -/
def resLetter (a : Atom) : Char := threeToOneGet (pyUpper a.resn)

/-- Shallow embedding of `extract_aligned_sequence` of
`2_seq_alignment.py` (lines 49-123): build the two threshold selections,
fail softly (`None, None`) when either is empty, sort both by
`(chain, resi)` — which can raise `TypeError` — pair the first
`min` atoms of both sorted lists, and translate residue names through
`THREE_TO_ONE` with fallback `"X"`. -/
def extract_aligned_sequence (s : Session) (target : String) :
    Except PyErr (Option (String × String)) :=
  match getObj s "ref", getObj s target with
  | some refO, some tgtO =>
    let refSel := withinCA refO tgtO distance_threshold
    let tgtSel := withinCA tgtO refO distance_threshold
    if refSel.isEmpty || tgtSel.isEmpty then Except.ok none
    else
      match sortE refSel with
      | Except.error e => Except.error e
      | Except.ok refAtoms =>
        match sortE tgtSel with
        | Except.error e => Except.error e
        | Except.ok tgtAtoms =>
          let n := min refAtoms.length tgtAtoms.length
          if n = 0 then Except.ok none
          else
            Except.ok (some
              (String.mk ((refAtoms.take n).map resLetter),
               String.mk ((tgtAtoms.take n).map resLetter)))
  | _, _ => Except.ok none

/-- The target objects of stage 2's main loop: every object of the session
except `"ref"` and `"session"` (`2_seq_alignment.py` lines 141-142). -/
def stage2_targets (s : Session) : List String :=
  (s.map Prod.fst).filter (fun n => !(decide (n = "ref")) && !(decide (n = "session")))

/-- The exact FASTA text stage 2 writes for one target
(`2_seq_alignment.py` lines 155-158). -/
def fastaPair (t r g : String) : String :=
  ">ref_aligned\n" ++ r ++ "\n>" ++ t ++ "_aligned\n" ++ g ++ "\n"

/-- The files written by stage 2's main loop over a list of targets: a
failed extraction (`None, None`) is logged and skipped, a raised exception
propagates. -/
def stage2_files (s : Session) : List String → Except PyErr (List (String × String))
  | [] => Except.ok []
  | t :: ts =>
    match extract_aligned_sequence s t with
    | Except.error e => Except.error e
    | Except.ok none => stage2_files s ts
    | Except.ok (some (r, g)) =>
      match stage2_files s ts with
      | Except.error e => Except.error e
      | Except.ok rest => Except.ok ((t ++ "_seq_align.fasta", fastaPair t r g) :: rest)

/-- Shallow embedding of `main` of `2_seq_alignment.py`: the list of
`(filename, content)` pairs written, or the uncaught exception that aborts
the run. -/
def stage2_main (s : Session) : Except PyErr (List (String × String)) :=
  stage2_files s (stage2_targets s)

/-- Observable external calls a script performs, used to state in which
order the scripts touch the toolkit and the filesystem. -/
inductive Ev where
  | openToolkit
  | load (obj : String)
  | cealign (refObj target : String)
  | logErr
  | logRmsd (target : String)
  | readFile (f : String)
  | writeFile (f : String)
  | saveSession (f : String)
deriving DecidableEq

/-- The target object names of stage 1: the globbed `*.pdb` basenames
without `ref.pdb`, with the `.pdb` extension stripped
(`os.path.splitext`), as `1_ce_align.py` lines 49-50 and 66 compute
them. -/
def stage1_targets (files : List String) : List String :=
  (files.filter (fun f => !(decide (f = "ref.pdb")))).map
    (fun f => String.mk (f.data.take (f.data.length - 4)))

/-- The external calls stage 1 performs for one target: load it, run
`cealign` against `"ref"`, and log either the alignment error (the
`except` branch, which continues the loop) or the RMSD. -/
def stage1_item (ce : String → Except String Unit) (t : String) : List Ev :=
  [Ev.load t, Ev.cealign "ref" t] ++
    (match ce t with
     | Except.error _ => [Ev.logErr]
     | Except.ok _ => [Ev.logRmsd t])

/-- Shallow embedding of `main` of `1_ce_align.py` as the sequence of
external calls it performs, given the `*.pdb` basenames found in the
`pdbs` folder and the outcome `ce` of each `cealign` call: nothing happens
when `ref.pdb` is missing or no other `.pdb` file exists; otherwise PyMOL
is opened, the reference is loaded, every target is loaded and aligned,
and one session file `alignment.pse` is saved at the end. -/
def stage1_trace (files : List String) (ce : String → Except String Unit) : List Ev :=
  if "ref.pdb" ∈ files then
    if stage1_targets files = [] then []
    else
      ([Ev.openToolkit, Ev.load "ref"] ++
        (stage1_targets files).flatMap (stage1_item ce)) ++
      [Ev.saveSession "alignment.pse"]
  else []

/-- The external calls of stage 2's per-target loop: a successful
extraction writes the target's FASTA file, a soft failure (`None, None`)
is logged and skipped, and an uncaught exception aborts the loop. -/
def stage2_loopTrace (s : Session) : List String → List Ev
  | [] => []
  | t :: ts =>
    match extract_aligned_sequence s t with
    | Except.error _ => []
    | Except.ok none => stage2_loopTrace s ts
    | Except.ok (some _) => Ev.writeFile (t ++ "_seq_align.fasta") :: stage2_loopTrace s ts

/-- The external calls of `main` of `2_seq_alignment.py`: PyMOL is opened
first, the saved session is loaded, then the per-target loop runs. -/
def stage2_trace (s : Session) : List Ev :=
  Ev.openToolkit :: Ev.load "session" :: stage2_loopTrace s (stage2_targets s)

/-- Shallow embedding of `parse_fasta` of `3_msa_generator.py`
(lines 25-45), processing the split lines with the current header, the
accumulated sequence lines and the dictionary built so far. -/
def parseLoop : List String → Option String → List String → List (String × String) →
    List (String × String)
  | [], none, _, acc => acc
  | [], some h, seqs, acc => dictInsert acc h (pyJoin seqs)
  | line :: rest, hdr, seqs, acc =>
    if startsWithGt line then
      parseLoop rest (some (pyStrip (sTail line))) []
        (match hdr with
         | none => acc
         | some h => dictInsert acc h (pyJoin seqs))
    else
      parseLoop rest hdr (seqs ++ [pyStrip line]) acc

/-- `parse_fasta`: split the content into lines and fold them into an
insertion-ordered dictionary from header (without `'>'`, stripped) to the
concatenation of its stripped sequence lines. -/
def parse_fasta (content : String) : List (String × String) :=
  parseLoop (pySplitlines content) none [] []

/-- The FASTA text the stage 3 writer produces for an MSA dictionary
(`3_msa_generator.py` lines 110-113): `>name\nsequence\n` per entry, in
dictionary order. -/
def writeMsa : List (String × String) → String
  | [] => ""
  | (h, s) :: rest => ">" ++ h ++ "\n" ++ s ++ "\n" ++ writeMsa rest

/-- One iteration of stage 3's file loop (`3_msa_generator.py` lines
61-87) over the state (reference sequences seen so far, target
dictionary): a file whose read raises, that lacks `ref_aligned`, or whose
non-reference header count differs from one is logged and skipped;
otherwise its reference sequence is appended and its target sequence is
stored under the header with `_aligned` removed. -/
def processFasta (st : List String × List (String × String))
    (file : String × Except Unit String) : List String × List (String × String) :=
  match file.2 with
  | Except.error _ => st
  | Except.ok content =>
    let d := parse_fasta content
    match lookupStr d "ref_aligned",
          (d.map Prod.fst).filter (fun k => !(decide (k = "ref_aligned"))) with
    | some refSeq, [targetKey] =>
      (st.1 ++ [refSeq],
       dictInsert st.2 (pyReplace targetKey "_aligned" "") ((lookupStr d targetKey).getD ""))
    | _, _ => st

/-- The reference sequences stage 3 extracts from its input files, in file
order. -/
def stage3_refs (files : List (String × Except Unit String)) : List String :=
  (files.foldl processFasta ([], [])).1

/-- The target dictionary stage 3 extracts from its input files. -/
def stage3_targetsD (files : List (String × Except Unit String)) : List (String × String) :=
  (files.foldl processFasta ([], [])).2

/-- The consistency check of `3_msa_generator.py` lines 94-95: every
extracted reference sequence equals the first.  The script only logs a
warning when this is false. -/
def stage3_consistent (files : List (String × Except Unit String)) : Bool :=
  match stage3_refs files with
  | [] => true
  | r :: rs => rs.all (fun q => decide (q = r))

/-- The MSA dictionary stage 3 builds (lines 102-105): the first reference
sequence under `"ref"`, then every target sequence. -/
def stage3_msa (files : List (String × Except Unit String)) : List (String × String) :=
  match stage3_refs files with
  | [] => []
  | r :: _ => (stage3_targetsD files).foldl (fun m p => dictInsert m p.1 p.2) [("ref", r)]

/-- Shallow embedding of `main` of `3_msa_generator.py`: given the
`*_seq_align.fasta` files (name and content, or a read error), the written
output file, or `none` when the script returns early (no input files, or
no valid reference sequence). -/
def stage3_main (files : List (String × Except Unit String)) : Option (String × String) :=
  if files.isEmpty then none
  else
    match stage3_refs files with
    | [] => none
    | _ :: _ => some ("aligned.msa.fasta", writeMsa (stage3_msa files))

/-- The external calls of stage 3: read every input file, and write the
merged MSA file when a valid reference sequence was found.  The script
never touches the toolkit. -/
def stage3_trace (files : List (String × Except Unit String)) : List Ev :=
  if files.isEmpty then []
  else
    (files.map (fun f => Ev.readFile f.1)) ++
      (match stage3_refs files with
       | [] => []
       | _ :: _ => [Ev.writeFile "aligned.msa.fasta"])

/-- Spec-side description of stage 2's per-target computation, written as
the composition the specification names: the spatial-threshold filter, the
sort by `(chain, resi)`, and the per-residue fixed-table lookup applied to
the pairing of the two sorted selections. -/
def stage2_spec_pipeline (refO tgtO : List Atom) : Except PyErr (Option (String × String)) :=
  let refSel := withinCA refO tgtO distance_threshold
  let tgtSel := withinCA tgtO refO distance_threshold
  if refSel.isEmpty || tgtSel.isEmpty then Except.ok none
  else
    match sortE refSel with
    | Except.error e => Except.error e
    | Except.ok rs =>
      match sortE tgtSel with
      | Except.error e => Except.error e
      | Except.ok ts =>
        let pairs := rs.zip ts
        if pairs.isEmpty then Except.ok none
        else
          Except.ok (some
            (String.mk (pairs.map (fun p => resLetter p.1)),
             String.mk (pairs.map (fun p => resLetter p.2))))

/-- Ordering used in the analysis of the sort: `p` precedes `q` when `q`'s
chain does not compare strictly below `p`'s. -/
def chainLe (p q : Atom) : Prop := strLtb q.chain p.chain = false

/-- A list of atoms is chain-homogeneous when any two atoms of the same
chain have sort keys of the same kind (both `int` or both `str`). -/
def chainHomog (l : List Atom) : Prop :=
  ∀ a ∈ l, ∀ b ∈ l, a.chain = b.chain → keyTy a = keyTy b

/-- Whether stage 3 skips an input file: its read raised, it lacks a
`ref_aligned` entry, or its non-reference header count is not one. -/
def fileSkipped (f : String × Except Unit String) : Bool :=
  match f.2 with
  | Except.error _ => true
  | Except.ok content =>
    let d := parse_fasta content
    match lookupStr d "ref_aligned",
          (d.map Prod.fst).filter (fun k => !(decide (k = "ref_aligned"))) with
    | some _, [_] => false
    | _, _ => true

/-- Conditions on an MSA header under which the stage 3 writer emits it
reversibly: non-empty, fixed by `strip`, no leading `'>'`, and no
line-break character. -/
def goodHeader (h : String) : Prop :=
  h ≠ "" ∧ pyStrip h = h ∧ startsWithGt h = false ∧
    h.data.all (fun c => !isPyLineBreak c) = true

/-- Conditions on an MSA sequence under which the stage 3 writer emits it
reversibly: fixed by `strip`, no leading `'>'`, and no line-break
character. -/
def goodSeq (sq : String) : Prop :=
  pyStrip sq = sq ∧ startsWithGt sq = false ∧
    sq.data.all (fun c => !isPyLineBreak c) = true

instance (h : String) : Decidable (goodHeader h) := by
  unfold goodHeader
  infer_instance

instance (sq : String) : Decidable (goodSeq sq) := by
  unfold goodSeq
  infer_instance

/-- A session with one reference CA atom and one aligned target CA atom,
used to exercise the successful stage 2 path. -/
def okSession : Session :=
  [("ref", [⟨"CA", "A", "1", "ALA", 0, 0, 0⟩]),
   ("t", [⟨"CA", "A", "1", "GLY", 0, 0, 1⟩])]

/-- A reference CA atom with a numeric residue identifier. -/
def atomRefNum : Atom := ⟨"CA", "A", "1", "ALA", 0, 0, 0⟩

/-- A reference CA atom in the same chain with a non-numeric residue
identifier (an insertion-code identifier such as `2A`). -/
def atomRefIns : Atom := ⟨"CA", "A", "2A", "GLY", 100, 0, 0⟩

/-- A session whose first target selects both reference atoms — one
numeric and one non-numeric residue identifier in the same chain — and
whose second target would extract successfully. -/
def exSession : Session :=
  [("ref", [atomRefNum, atomRefIns]),
   ("t1", [⟨"CA", "A", "1", "ALA", 0, 0, 1⟩, ⟨"CA", "A", "2", "GLY", 100, 0, 1⟩]),
   ("t2", [⟨"CA", "A", "5", "GLY", 0, 1, 0⟩])]

/-- Two stage 3 input files whose reference sequences differ. -/
def exFilesInc : List (String × Except Unit String) :=
  [("a_seq_align.fasta", Except.ok ">ref_aligned\nAA\n>a_aligned\nGG\n"),
   ("b_seq_align.fasta", Except.ok ">ref_aligned\nCC\n>b_aligned\nGG\n")]

/-- A stage 3 input file whose read raises, hence is skipped. -/
def exBadFile : String × Except Unit String := ("x_seq_align.fasta", Except.error ())

/-- The `.pdb` basenames of a pdbs folder with a reference and two
targets. -/
def exPdbFiles : List String := ["ref.pdb", "a.pdb", "b.pdb"]

/-- A `cealign` outcome oracle where every alignment succeeds. -/
def exCeOk : String → Except String Unit := fun _ => Except.ok ()

/-- A `cealign` outcome oracle where aligning `a` raises. -/
def exCeFail : String → Except String Unit :=
  fun t => if t = "a" then Except.error "ExecutiveAlign failed" else Except.ok ()

theorem listLtCh_irrefl : ∀ l : List Char, listLtCh l l = false := by
  intro l
  induction l with
  | nil => rfl
  | cons a as ih => simp [listLtCh, ih]

theorem listLtCh_asymm : ∀ x y : List Char, listLtCh x y = true → listLtCh y x = false := by
  intro x
  induction x with
  | nil =>
    intro y h
    cases y with
    | nil => simp [listLtCh] at h
    | cons b bs => rfl
  | cons a as ih =>
    intro y h
    cases y with
    | nil => simp [listLtCh] at h
    | cons b bs =>
      simp only [listLtCh] at h ⊢
      by_cases h1 : a.toNat < b.toNat
      · rw [if_neg (by omega), if_pos h1]
      · by_cases h2 : b.toNat < a.toNat
        · rw [if_neg h1, if_pos h2] at h
          exact absurd h (by simp)
        · rw [if_neg h1, if_neg h2] at h
          rw [if_neg h2, if_neg h1]
          exact ih bs h

theorem listLtCh_le_trans :
    ∀ x y z : List Char, listLtCh y x = false → listLtCh z y = false →
      listLtCh z x = false := by
  intro x
  induction x with
  | nil =>
    intro y z h1 h2
    cases z with
    | nil => rfl
    | cons c cs => rfl
  | cons a as ih =>
    intro y z h1 h2
    cases y with
    | nil => simp [listLtCh] at h1
    | cons b bs =>
      cases z with
      | nil => simp [listLtCh] at h2
      | cons c cs =>
        simp only [listLtCh] at h1 h2 ⊢
        by_cases hba : b.toNat < a.toNat
        · rw [if_pos hba] at h1
          exact absurd h1 (by simp)
        · by_cases hcb : c.toNat < b.toNat
          · rw [if_pos hcb] at h2
            exact absurd h2 (by simp)
          · rw [if_neg hba] at h1
            rw [if_neg hcb] at h2
            rw [if_neg (show ¬ c.toNat < a.toNat by omega)]
            by_cases hac : a.toNat < c.toNat
            · rw [if_pos hac]
            · rw [if_neg hac]
              have hca : c.toNat = a.toNat := by omega
              by_cases hab : a.toNat < b.toNat
              · omega
              · rw [if_neg hab] at h1
                rw [if_neg (show ¬ b.toNat < c.toNat by omega)] at h2
                exact ih bs cs h1 h2

theorem strLtb_irrefl (s : String) : strLtb s s = false := listLtCh_irrefl s.data

theorem strLtb_asymm {s t : String} (h : strLtb s t = true) : strLtb t s = false :=
  listLtCh_asymm s.data t.data h

theorem strLtb_le_trans {s t u : String} (h1 : strLtb t s = false) (h2 : strLtb u t = false) :
    strLtb u s = false :=
  listLtCh_le_trans s.data t.data u.data h1 h2

theorem ltAtomE_ok_same_chain_ty {x y : Atom} {b : Bool}
    (h : ltAtomE x y = Except.ok b) (hc : y.chain = x.chain) : keyTy y = keyTy x := by
  unfold ltAtomE at h
  rw [if_pos hc.symm] at h
  unfold keyTy
  cases hx : resKey x <;> cases hy : resKey y <;> rw [hx, hy] at h <;> simp at h ⊢

theorem ltAtomE_ok_true_le {x y : Atom} (h : ltAtomE x y = Except.ok true) :
    chainLe x y := by
  unfold ltAtomE at h
  unfold chainLe
  by_cases hc : x.chain = y.chain
  · rw [hc, strLtb_irrefl]
  · rw [if_neg hc] at h
    exact strLtb_asymm (by injection h)

theorem ltAtomE_ok_false_le {x y : Atom} (h : ltAtomE x y = Except.ok false) :
    chainLe y x := by
  unfold ltAtomE at h
  unfold chainLe
  by_cases hc : x.chain = y.chain
  · rw [hc, strLtb_irrefl]
  · rw [if_neg hc] at h
    injection h

theorem insertE_mem {x : Atom} :
    ∀ {acc acc' : List Atom}, insertE x acc = Except.ok acc' →
      ∀ z, z ∈ acc' ↔ z = x ∨ z ∈ acc := by
  intro acc
  induction acc with
  | nil =>
    intro acc' h z
    simp only [insertE] at h
    injection h with h
    subst h
    simp
  | cons y ys ih =>
    intro acc' h z
    simp only [insertE] at h
    cases hlt : ltAtomE x y with
    | error e => rw [hlt] at h; cases h
    | ok b =>
      rw [hlt] at h
      cases b with
      | true =>
        injection h with h
        subst h
        simp
      | false =>
        cases hrec : insertE x ys with
        | error e => rw [hrec] at h; cases h
        | ok zs =>
          rw [hrec] at h
          injection h with h
          subst h
          simp only [List.mem_cons]
          rw [ih hrec z]
          tauto

theorem insertE_length {x : Atom} :
    ∀ {acc acc' : List Atom}, insertE x acc = Except.ok acc' →
      acc'.length = acc.length + 1 := by
  intro acc
  induction acc with
  | nil =>
    intro acc' h
    simp only [insertE] at h
    injection h with h
    subst h
    rfl
  | cons y ys ih =>
    intro acc' h
    simp only [insertE] at h
    cases hlt : ltAtomE x y with
    | error e => rw [hlt] at h; cases h
    | ok b =>
      rw [hlt] at h
      cases b with
      | true =>
        injection h with h
        subst h
        rfl
      | false =>
        cases hrec : insertE x ys with
        | error e => rw [hrec] at h; cases h
        | ok zs =>
          rw [hrec] at h
          injection h with h
          subst h
          simp [ih hrec]

theorem insertE_pairwise {x : Atom} :
    ∀ {acc acc' : List Atom}, List.Pairwise chainLe acc →
      insertE x acc = Except.ok acc' → List.Pairwise chainLe acc' := by
  intro acc
  induction acc with
  | nil =>
    intro acc' _ h
    simp only [insertE] at h
    injection h with h
    subst h
    simp
  | cons y ys ih =>
    intro acc' hp h
    rw [List.pairwise_cons] at hp
    simp only [insertE] at h
    cases hlt : ltAtomE x y with
    | error e => rw [hlt] at h; cases h
    | ok b =>
      rw [hlt] at h
      cases b with
      | true =>
        injection h with h
        subst h
        rw [List.pairwise_cons]
        constructor
        · intro z hz
          rcases List.mem_cons.mp hz with rfl | hz'
          · exact ltAtomE_ok_true_le hlt
          · exact strLtb_le_trans (ltAtomE_ok_true_le hlt) (hp.1 z hz')
        · rw [List.pairwise_cons]
          exact hp
      | false =>
        cases hrec : insertE x ys with
        | error e => rw [hrec] at h; cases h
        | ok zs =>
          rw [hrec] at h
          injection h with h
          subst h
          rw [List.pairwise_cons]
          constructor
          · intro z hz
            rcases (insertE_mem hrec z).mp hz with rfl | hz'
            · exact ltAtomE_ok_false_le hlt
            · exact hp.1 z hz'
          · exact ih hp.2 hrec

theorem insertE_reach {x : Atom} :
    ∀ {acc acc' : List Atom}, List.Pairwise chainLe acc → chainHomog acc →
      insertE x acc = Except.ok acc' →
      ∀ y ∈ acc, y.chain = x.chain → keyTy y = keyTy x := by
  intro acc
  induction acc with
  | nil =>
    intro acc' _ _ _ y hy
    cases hy
  | cons y ys ih =>
    intro acc' hp hh h z hz hchain
    rw [List.pairwise_cons] at hp
    simp only [insertE] at h
    cases hlt : ltAtomE x y with
    | error e => rw [hlt] at h; cases h
    | ok b =>
      rw [hlt] at h
      rcases List.mem_cons.mp hz with rfl | hz'
      · exact ltAtomE_ok_same_chain_ty hlt hchain
      · cases b with
        | true =>
          by_cases hxy : x.chain = y.chain
          · have h1 : keyTy z = keyTy y :=
              hh z (List.mem_cons_of_mem y hz') y (List.mem_cons_self y ys)
                (by rw [hchain, hxy])
            have h2 : keyTy y = keyTy x := ltAtomE_ok_same_chain_ty hlt hxy.symm
            rw [h1, h2]
          · unfold ltAtomE at hlt
            rw [if_neg hxy] at hlt
            injection hlt with hlt
            have hzy : chainLe y z := hp.1 z hz'
            unfold chainLe at hzy
            rw [hchain] at hzy
            rw [hzy] at hlt
            cases hlt
        | false =>
          cases hrec : insertE x ys with
          | error e => rw [hrec] at h; cases h
          | ok zs =>
            have hh' : chainHomog ys := by
              intro a ha b hb hab
              exact hh a (List.mem_cons_of_mem y ha) b (List.mem_cons_of_mem y hb) hab
            exact ih hp.2 hh' hrec z hz' hchain

theorem insertE_homog {x : Atom} {acc acc' : List Atom}
    (hp : List.Pairwise chainLe acc) (hh : chainHomog acc)
    (h : insertE x acc = Except.ok acc') : chainHomog acc' := by
  intro a ha b hb hab
  rcases (insertE_mem h a).mp ha with rfl | ha' <;>
    rcases (insertE_mem h b).mp hb with rfl | hb'
  · rfl
  · exact (insertE_reach hp hh h b hb' hab.symm).symm
  · exact insertE_reach hp hh h a ha' hab
  · exact hh a ha' b hb' hab

theorem sortGo_ok :
    ∀ (xs acc res : List Atom), sortGo acc xs = Except.ok res →
      List.Pairwise chainLe acc → chainHomog acc →
      chainHomog res ∧ (∀ z, z ∈ res ↔ z ∈ acc ∨ z ∈ xs) := by
  intro xs
  induction xs with
  | nil =>
    intro acc res h hp hh
    simp only [sortGo] at h
    injection h with h
    subst h
    refine ⟨hh, ?_⟩
    intro z
    simp
  | cons x xs ih =>
    intro acc res h hp hh
    simp only [sortGo] at h
    cases hins : insertE x acc with
    | error e => rw [hins] at h; cases h
    | ok acc' =>
      rw [hins] at h
      have hp' := insertE_pairwise hp hins
      have hh' := insertE_homog hp hh hins
      rcases ih acc' res h hp' hh' with ⟨hre, hmem⟩
      refine ⟨hre, ?_⟩
      intro z
      rw [hmem z, insertE_mem hins z]
      simp only [List.mem_cons]
      tauto

theorem sortGo_length :
    ∀ (xs acc res : List Atom), sortGo acc xs = Except.ok res →
      res.length = acc.length + xs.length := by
  intro xs
  induction xs with
  | nil =>
    intro acc res h
    simp only [sortGo] at h
    injection h with h
    subst h
    rfl
  | cons x xs ih =>
    intro acc res h
    simp only [sortGo] at h
    cases hins : insertE x acc with
    | error e => rw [hins] at h; cases h
    | ok acc' =>
      rw [hins] at h
      have := ih acc' res h
      rw [this, insertE_length hins]
      simp only [List.length_cons]
      omega

theorem sortE_length {l res : List Atom} (h : sortE l = Except.ok res) :
    res.length = l.length := by
  have := sortGo_length l [] res h
  simpa using this

theorem sortE_ok_homog {l res : List Atom} (h : sortE l = Except.ok res) : chainHomog l := by
  rcases sortGo_ok l [] res h (by simp) (by intro a ha; cases ha) with ⟨hre, hmem⟩
  intro a ha b hb hab
  exact hre a ((hmem a).mpr (Or.inr ha)) b ((hmem b).mpr (Or.inr hb)) hab

theorem sortE_error_of_mixed {l : List Atom} {a b : Atom}
    (ha : a ∈ l) (hb : b ∈ l) (hc : a.chain = b.chain) (hty : keyTy a ≠ keyTy b) :
    sortE l = Except.error PyErr.typeError := by
  cases hs : sortE l with
  | ok res => exact absurd (sortE_ok_homog hs a ha b hb hc) hty
  | error e => cases e; rfl

theorem isEmpty_false_of_ne_nil {α : Type} {l : List α} (h : l ≠ []) : l.isEmpty = false := by
  cases l with
  | nil => exact absurd rfl h
  | cons a as => rfl

theorem extract_error_of_mixed {s : Session} {t : String} {refO tgtO : List Atom} {a b : Atom}
    (href : getObj s "ref" = some refO) (htgt : getObj s t = some tgtO)
    (ha : a ∈ withinCA refO tgtO distance_threshold)
    (hb : b ∈ withinCA refO tgtO distance_threshold)
    (hc : a.chain = b.chain) (hty : keyTy a ≠ keyTy b)
    (hts : withinCA tgtO refO distance_threshold ≠ []) :
    extract_aligned_sequence s t = Except.error PyErr.typeError := by
  have hr : withinCA refO tgtO distance_threshold ≠ [] := by
    intro hnil
    rw [hnil] at ha
    cases ha
  have hsort := sortE_error_of_mixed ha hb hc hty
  simp only [extract_aligned_sequence, href, htgt]
  rw [isEmpty_false_of_ne_nil hr, isEmpty_false_of_ne_nil hts]
  simp only [Bool.or_self, Bool.false_eq_true, if_false, hsort]

theorem stage2_files_error {s : Session} {e : PyErr} :
    ∀ {ts : List String} {t : String}, t ∈ ts →
      extract_aligned_sequence s t = Except.error e →
      ∃ e', stage2_files s ts = Except.error e' := by
  intro ts
  induction ts with
  | nil =>
    intro t ht
    cases ht
  | cons u us ih =>
    intro t ht hex
    rcases List.mem_cons.mp ht with rfl | ht'
    · refine ⟨e, ?_⟩
      simp only [stage2_files, hex]
    · cases hu : extract_aligned_sequence s u with
      | error eu => exact ⟨eu, by simp only [stage2_files, hu]⟩
      | ok v =>
        rcases ih ht' hex with ⟨e', he'⟩
        cases v with
        | none => exact ⟨e', by simp only [stage2_files, hu, he']⟩
        | some p =>
          cases p with
          | mk r g => exact ⟨e', by simp only [stage2_files, hu, he']⟩

theorem stage2_files_mem {s : Session} :
    ∀ {ts : List String} {files : List (String × String)} {t r g : String},
      t ∈ ts → extract_aligned_sequence s t = Except.ok (some (r, g)) →
      stage2_files s ts = Except.ok files →
      (t ++ "_seq_align.fasta", fastaPair t r g) ∈ files := by
  intro ts
  induction ts with
  | nil =>
    intro files t r g ht
    cases ht
  | cons u us ih =>
    intro files t r g ht hex h
    simp only [stage2_files] at h
    rcases List.mem_cons.mp ht with rfl | ht'
    · rw [hex] at h
      cases hrest : stage2_files s us with
      | error e => rw [hrest] at h; cases h
      | ok rest =>
        rw [hrest] at h
        injection h with h
        subst h
        exact List.mem_cons_self _ _
    · cases hu : extract_aligned_sequence s u with
      | error eu => rw [hu] at h; cases h
      | ok v =>
        rw [hu] at h
        cases v with
        | none => exact ih ht' hex h
        | some p =>
          cases p with
          | mk r' g' =>
            cases hrest : stage2_files s us with
            | error e => rw [hrest] at h; cases h
            | ok rest =>
              rw [hrest] at h
              injection h with h
              subst h
              exact List.mem_cons_of_mem _ (ih ht' hex hrest)

theorem stage2_files_skip {s : Session} {t : String} {ts : List String}
    (h : extract_aligned_sequence s t = Except.ok none) :
    stage2_files s (t :: ts) = stage2_files s ts := by
  simp only [stage2_files, h]

theorem zip_map_resLetter_fst :
    ∀ l1 l2 : List Atom,
      ((l1.zip l2).map (fun p => resLetter p.1)) =
        (l1.take (min l1.length l2.length)).map resLetter := by
  intro l1
  induction l1 with
  | nil => intro l2; simp
  | cons a as ih =>
    intro l2
    cases l2 with
    | nil => simp
    | cons b bs =>
      simp only [List.zip_cons_cons, List.map_cons, List.length_cons, Nat.succ_min_succ,
        List.take_succ_cons]
      rw [ih bs]

theorem zip_map_resLetter_snd :
    ∀ l1 l2 : List Atom,
      ((l1.zip l2).map (fun p => resLetter p.2)) =
        (l2.take (min l1.length l2.length)).map resLetter := by
  intro l1
  induction l1 with
  | nil => intro l2; simp
  | cons a as ih =>
    intro l2
    cases l2 with
    | nil => simp
    | cons b bs =>
      simp only [List.zip_cons_cons, List.map_cons, List.length_cons, Nat.succ_min_succ,
        List.take_succ_cons]
      rw [ih bs]

theorem extract_eq_spec_pipeline {s : Session} {t : String} {refO tgtO : List Atom}
    (href : getObj s "ref" = some refO) (htgt : getObj s t = some tgtO) :
    extract_aligned_sequence s t = stage2_spec_pipeline refO tgtO := by
  simp only [extract_aligned_sequence, stage2_spec_pipeline, href, htgt]
  by_cases hguard : ((withinCA refO tgtO distance_threshold).isEmpty ||
      (withinCA tgtO refO distance_threshold).isEmpty) = true
  · rw [if_pos hguard, if_pos hguard]
  · rw [if_neg hguard, if_neg hguard]
    cases h1 : sortE (withinCA refO tgtO distance_threshold) with
    | error e => simp only []
    | ok rs =>
      cases h2 : sortE (withinCA tgtO refO distance_threshold) with
      | error e => simp only []
      | ok ts =>
        simp only []
        have hlen : (rs.zip ts).length = min rs.length ts.length := List.length_zip rs ts
        by_cases hn : min rs.length ts.length = 0
        · rw [if_pos hn, if_pos (by rw [List.isEmpty_iff, ← List.length_eq_zero, hlen]; exact hn)]
        · rw [if_neg hn,
            if_neg (show ¬ (rs.zip ts).isEmpty = true by
              rw [List.isEmpty_iff, ← List.length_eq_zero, hlen]; exact hn)]
          rw [zip_map_resLetter_fst, zip_map_resLetter_snd]

theorem extract_ok_lengths {s : Session} {t : String} {refO tgtO : List Atom} {r g : String}
    (href : getObj s "ref" = some refO) (htgt : getObj s t = some tgtO)
    (hex : extract_aligned_sequence s t = Except.ok (some (r, g))) :
    r.length = g.length ∧
      r.length = min (withinCA refO tgtO distance_threshold).length
        (withinCA tgtO refO distance_threshold).length := by
  simp only [extract_aligned_sequence, href, htgt] at hex
  by_cases hguard : ((withinCA refO tgtO distance_threshold).isEmpty ||
      (withinCA tgtO refO distance_threshold).isEmpty) = true
  · rw [if_pos hguard] at hex
    cases hex
  · rw [if_neg hguard] at hex
    cases h1 : sortE (withinCA refO tgtO distance_threshold) with
    | error e =>
      simp only [h1] at hex
      cases hex
    | ok rs =>
      simp only [h1] at hex
      cases h2 : sortE (withinCA tgtO refO distance_threshold) with
      | error e =>
        simp only [h2] at hex
        cases hex
      | ok ts =>
        simp only [h2] at hex
        by_cases hn : min rs.length ts.length = 0
        · rw [if_pos hn] at hex
          cases hex
        · rw [if_neg hn] at hex
          injection hex with hex
          injection hex with hex
          obtain ⟨hex1, hex2⟩ := Prod.mk.inj hex
          have hrl : r.length = min rs.length ts.length := by
            rw [← hex1]
            show ((rs.take (min rs.length ts.length)).map resLetter).length = _
            rw [List.length_map, List.length_take]
            omega
          have hgl : g.length = min rs.length ts.length := by
            rw [← hex2]
            show ((ts.take (min rs.length ts.length)).map resLetter).length = _
            rw [List.length_map, List.length_take]
            omega
          rw [hrl, hgl, sortE_length h1, sortE_length h2]
          exact ⟨rfl, rfl⟩

theorem lookupStr_eq_none {α : Type} :
    ∀ (l : List (String × α)) (k : String), k ∉ l.map Prod.fst → lookupStr l k = none := by
  intro l
  induction l with
  | nil => intro k _; rfl
  | cons p rest ih =>
    intro k hk
    simp only [List.map_cons, List.mem_cons] at hk
    push_neg at hk
    cases p with
    | mk k' v =>
      simp only [lookupStr]
      rw [if_neg (by simpa using fun h => hk.1 h.symm)]
      exact ih k hk.2

theorem lookupStr_of_mem {α : Type} :
    ∀ (l : List (String × α)) (k : String) (v : α), (l.map Prod.fst).Nodup →
      (k, v) ∈ l → lookupStr l k = some v := by
  intro l
  induction l with
  | nil =>
    intro k v _ hm
    cases hm
  | cons p rest ih =>
    intro k v hnd hm
    simp only [List.map_cons, List.nodup_cons] at hnd
    cases p with
    | mk k' v' =>
      rcases List.mem_cons.mp hm with heq | hm'
      · injection heq with h1 h2
        simp only [lookupStr]
        rw [if_pos h1.symm, h2]
      · simp only [lookupStr]
        have hk : k' ≠ k := by
          intro hkk
          subst hkk
          exact hnd.1 (List.mem_map.mpr ⟨(k', v), hm', rfl⟩)
        rw [if_neg hk]
        exact ih k v hnd.2 hm'

theorem stage1_trace_eq {files : List String} {ce : String → Except String Unit}
    (h1 : "ref.pdb" ∈ files) (h2 : stage1_targets files ≠ []) :
    stage1_trace files ce =
      ([Ev.openToolkit, Ev.load "ref"] ++ (stage1_targets files).flatMap (stage1_item ce)) ++
        [Ev.saveSession "alignment.pse"] := by
  unfold stage1_trace
  rw [if_pos h1, if_neg h2]

theorem stage1_item_no_save {ce : String → Except String Unit} {t : String} {f : String} :
    (stage1_item ce t).filter (fun e => decide (e = Ev.saveSession f)) = [] := by
  unfold stage1_item
  cases ce t <;> rfl

theorem stage1_flatMap_no_save {ce : String → Except String Unit} {f : String} :
    ∀ ts : List String,
      ((ts.flatMap (stage1_item ce)).filter (fun e => decide (e = Ev.saveSession f))) = [] := by
  intro ts
  induction ts with
  | nil => rfl
  | cons t ts ih =>
    simp only [List.flatMap_cons, List.filter_append, ih, stage1_item_no_save]
    rfl

theorem processFasta_skip {st : List String × List (String × String)}
    {f : String × Except Unit String} (h : fileSkipped f = true) : processFasta st f = st := by
  cases f with
  | mk nm c =>
    cases c with
    | error e => rfl
    | ok content =>
      simp only [fileSkipped] at h
      simp only [processFasta]
      cases hl : lookupStr (parse_fasta content) "ref_aligned" with
      | none => simp only []
      | some refSeq =>
        rw [hl] at h
        cases hf : ((parse_fasta content).map Prod.fst).filter
            (fun k => !(decide (k = "ref_aligned"))) with
        | nil => simp only []
        | cons k ks =>
          rw [hf] at h
          cases ks with
          | nil => cases h
          | cons k2 ks2 => simp only []

theorem stage3_refs_skip {f : String × Except Unit String}
    {files : List (String × Except Unit String)} (h : fileSkipped f = true) :
    stage3_refs (f :: files) = stage3_refs files := by
  unfold stage3_refs
  simp only [List.foldl_cons, processFasta_skip h]

theorem stage3_targetsD_skip {f : String × Except Unit String}
    {files : List (String × Except Unit String)} (h : fileSkipped f = true) :
    stage3_targetsD (f :: files) = stage3_targetsD files := by
  unfold stage3_targetsD
  simp only [List.foldl_cons, processFasta_skip h]

theorem stage3_main_skip {f : String × Except Unit String}
    {files : List (String × Except Unit String)} (h : fileSkipped f = true) :
    stage3_main (f :: files) = stage3_main files := by
  have hmsa : stage3_msa (f :: files) = stage3_msa files := by
    unfold stage3_msa
    rw [stage3_refs_skip h, stage3_targetsD_skip h]
  cases files with
  | nil =>
    simp only [stage3_main, List.isEmpty, stage3_refs_skip h]
    have hrnil : stage3_refs ([] : List (String × Except Unit String)) = [] := rfl
    rw [hrnil]
    simp
  | cons f2 fs =>
    simp only [stage3_main, List.isEmpty, stage3_refs_skip h, hmsa]

/-- Folding a list of bindings into a dictionary with `dictInsert`, the
way both stage 3 loops build their dictionaries. -/
def dictFold (d : List (String × String)) (l : List (String × String)) :
    List (String × String) :=
  l.foldl (fun m p => dictInsert m p.1 p.2) d

theorem str_data_append (a b : String) : (a ++ b).data = a.data ++ b.data := rfl

theorem str_append_empty (s : String) : s ++ "" = s := by
  have h : s.data ++ ([] : List Char) = s.data := List.append_nil _
  show String.mk (s.data ++ "".data) = s
  show String.mk (s.data ++ []) = s
  rw [h]

theorem no_nl_of_break_free {s : String}
    (h : s.data.all (fun c => !isPyLineBreak c) = true) : '\n' ∉ s.data := by
  intro hmem
  have h2 := List.all_eq_true.mp h '\n' hmem
  simp [isPyLineBreak] at h2

theorem splitLines_block :
    ∀ (l rest : List Char), '\n' ∉ l →
      splitLinesCh (l ++ '\n' :: rest) = l :: splitLinesCh rest := by
  intro l
  induction l with
  | nil =>
    intro rest _
    simp [splitLinesCh]
  | cons c cs ih =>
    intro rest hnl
    simp only [List.mem_cons] at hnl
    push_neg at hnl
    simp only [List.cons_append, splitLinesCh]
    rw [if_neg (fun h => hnl.1 h.symm)]
    rw [List.append_eq, ih rest hnl.2]

theorem writeMsa_cons_data (h sq : String) (rest : List (String × String)) :
    (writeMsa ((h, sq) :: rest)).data =
      ('>' :: h.data) ++ '\n' :: (sq.data ++ '\n' :: (writeMsa rest).data) := by
  show (">" ++ h ++ "\n" ++ sq ++ "\n" ++ writeMsa rest).data = _
  simp only [str_data_append, List.append_assoc]
  rfl

theorem pySplitlines_writeMsa :
    ∀ l : List (String × String),
      (∀ p ∈ l, '\n' ∉ p.1.data ∧ '\n' ∉ p.2.data) →
      pySplitlines (writeMsa l) = l.flatMap (fun p => [">" ++ p.1, p.2]) := by
  intro l
  induction l with
  | nil => intro _; rfl
  | cons p rest ih =>
    intro hg
    cases p with
    | mk h sq =>
      have hh := (hg (h, sq) (List.mem_cons_self _ _)).1
      have hs := (hg (h, sq) (List.mem_cons_self _ _)).2
      unfold pySplitlines
      rw [writeMsa_cons_data]
      rw [splitLines_block _ _ (by
        simp only [List.mem_cons]
        push_neg
        exact ⟨by decide, hh⟩)]
      rw [splitLines_block _ _ hs]
      simp only [List.map_cons, List.flatMap_cons, List.cons_append, List.nil_append]
      have h1 : String.mk ('>' :: h.data) = ">" ++ h := rfl
      have h2 : String.mk sq.data = sq := rfl
      rw [h1, h2]
      have h3 := ih (fun q hq => hg q (List.mem_cons_of_mem _ hq))
      unfold pySplitlines at h3
      rw [h3]

theorem parseLoop_blocks :
    ∀ (l : List (String × String)) (h0 sq0 : String) (acc : List (String × String)),
      (∀ p ∈ l, goodHeader p.1 ∧ goodSeq p.2) →
      parseLoop (l.flatMap (fun p => [">" ++ p.1, p.2])) (some h0) [sq0] acc =
        dictFold (dictInsert acc h0 sq0) l := by
  intro l
  induction l with
  | nil =>
    intro h0 sq0 acc _
    show dictInsert acc h0 (pyJoin [sq0]) = dictFold (dictInsert acc h0 sq0) []
    show dictInsert acc h0 (sq0 ++ "") = dictFold (dictInsert acc h0 sq0) []
    rw [str_append_empty]
    rfl
  | cons p rest ih =>
    intro h0 sq0 acc hg
    cases p with
    | mk h sq =>
      rcases hg (h, sq) (List.mem_cons_self _ _) with ⟨⟨_, hstrip, _, _⟩, hseq⟩
      simp only [List.flatMap_cons, List.cons_append, List.nil_append]
      show parseLoop ((">" ++ h) :: sq :: rest.flatMap (fun p => [">" ++ p.1, p.2]))
          (some h0) [sq0] acc = _
      rw [parseLoop]
      rw [if_pos (show startsWithGt (">" ++ h) = true from rfl)]
      rw [parseLoop]
      rw [if_neg (by rw [hseq.2.1]; exact Bool.false_ne_true)]
      have htail : pyStrip (sTail (">" ++ h)) = h := by
        have : sTail (">" ++ h) = h := rfl
        rw [this, hstrip]
      rw [htail, hseq.1]
      have hjoin : pyJoin [sq0] = sq0 := str_append_empty sq0
      rw [hjoin]
      show parseLoop (rest.flatMap (fun p => [">" ++ p.1, p.2])) (some h)
          ([] ++ [sq]) (dictInsert acc h0 sq0) = _
      rw [List.nil_append]
      rw [ih h sq (dictInsert acc h0 sq0) (fun q hq => hg q (List.mem_cons_of_mem _ hq))]
      rfl

theorem parse_writeMsa :
    ∀ l : List (String × String), (∀ p ∈ l, goodHeader p.1 ∧ goodSeq p.2) →
      parse_fasta (writeMsa l) = dictFold [] l := by
  intro l hg
  cases l with
  | nil => rfl
  | cons p rest =>
    cases p with
    | mk h sq =>
      rcases hg (h, sq) (List.mem_cons_self _ _) with ⟨⟨_, hstrip, _, hbrk⟩, hseq⟩
      unfold parse_fasta
      rw [pySplitlines_writeMsa ((h, sq) :: rest) (fun q hq =>
        ⟨no_nl_of_break_free (hg q hq).1.2.2.2, no_nl_of_break_free (hg q hq).2.2.2⟩)]
      simp only [List.flatMap_cons, List.cons_append, List.nil_append]
      rw [parseLoop]
      rw [if_pos (show startsWithGt (">" ++ h) = true from rfl)]
      rw [parseLoop]
      rw [if_neg (by rw [hseq.2.1]; exact Bool.false_ne_true)]
      have htail : pyStrip (sTail (">" ++ h)) = h := by
        have h0 : sTail (">" ++ h) = h := rfl
        rw [h0, hstrip]
      rw [htail, hseq.1]
      show parseLoop (rest.flatMap (fun p => [">" ++ p.1, p.2])) (some h) ([] ++ [sq]) [] = _
      rw [List.nil_append]
      rw [parseLoop_blocks rest h sq [] (fun q hq => hg q (List.mem_cons_of_mem _ hq))]
      rfl

theorem dictFold_nodup :
    ∀ (l d : List (String × String)), (l.map Prod.fst).Nodup →
      (∀ k ∈ l.map Prod.fst, k ∉ d.map Prod.fst) →
      dictFold d l = d ++ l := by
  intro l
  induction l with
  | nil =>
    intro d _ _
    show d = d ++ []
    rw [List.append_nil]
  | cons p rest ih =>
    intro d hnd hdisj
    cases p with
    | mk h sq =>
      simp only [List.map_cons, List.nodup_cons] at hnd
      have hins : dictInsert d h sq = d ++ [(h, sq)] := by
        unfold dictInsert
        rw [if_neg ?hne]
        case hne =>
          intro hany
          rcases List.any_eq_true.mp hany with ⟨q, hq, hqk⟩
          exact hdisj h (by simp) (List.mem_map.mpr ⟨q, hq, by simpa using hqk⟩)
      show dictFold (dictInsert d h sq) rest = _
      rw [hins]
      rw [ih (d ++ [(h, sq)]) hnd.2 ?hdisj2]
      · rw [List.append_assoc]
        rfl
      case hdisj2 =>
        intro k hk
        rw [List.map_append, List.mem_append]
        push_neg
        constructor
        · exact hdisj k (List.mem_cons_of_mem _ hk)
        · intro hmem
          simp only [List.map_cons, List.map_nil, List.mem_singleton] at hmem
          subst hmem
          exact hnd.1 hk

/-- C1: for every target of the loaded session for which extraction
succeeds, stage 2 writes one FASTA file named `{target}_seq_align.fasta`
whose content is exactly the reference sequence under header
`ref_aligned` followed by the target sequence under header
`{target}_aligned`; the sequences come from `extract_aligned_sequence`,
the threshold selection of CA atoms at distance at most 2.0 Å on the
aligned coordinates. -/
theorem stage2_writes_pairwise_fasta (s : Session) (t r g : String)
    (files : List (String × String)) (hmem : t ∈ stage2_targets s)
    (hex : extract_aligned_sequence s t = Except.ok (some (r, g)))
    (hmain : stage2_main s = Except.ok files) :
    (t ++ "_seq_align.fasta",
      ">ref_aligned\n" ++ r ++ "\n>" ++ t ++ "_aligned\n" ++ g ++ "\n") ∈ files :=
  stage2_files_mem hmem hex hmain

/-- Witness for C1 on a two-object session. -/
theorem stage2_writes_pairwise_fasta_witness :
    ("t" ++ "_seq_align.fasta",
      ">ref_aligned\n" ++ "A" ++ "\n>" ++ "t" ++ "_aligned\n" ++ "G" ++ "\n") ∈
      [("t_seq_align.fasta", ">ref_aligned\nA\n>t_aligned\nG\n")] :=
  stage2_writes_pairwise_fasta okSession "t" "A" "G"
    [("t_seq_align.fasta", ">ref_aligned\nA\n>t_aligned\nG\n")]
    (by decide) (by decide) (by decide)

/-- C2 counterexample: on two input files whose reference sequences
differ, the consistency check is false, yet stage 3 still writes the
merged MSA (seeded with the first file's reference), so the merge is not
conditioned on the check. -/
theorem stage3_merge_unconditional_cx :
    stage3_consistent exFilesInc = false ∧
    stage3_refs exFilesInc = ["AA", "CC"] ∧
    stage3_main exFilesInc =
      some ("aligned.msa.fasta", ">ref\nAA\n>a\nGG\n>b\nGG\n") :=
  ⟨by decide, by decide, by decide⟩

/-- C2 amended: stage 3 computes the reference-consistency check but only
logs on failure; whenever any reference sequence was extracted — even when
the check is false — it writes the merged MSA built from the first
reference sequence and the target dictionary. -/
theorem stage3_merges_despite_inconsistency
    (files : List (String × Except Unit String)) (r : String) (rs : List String)
    (h : stage3_refs files = r :: rs) (hinc : stage3_consistent files = false) :
    stage3_main files =
      some ("aligned.msa.fasta",
        writeMsa ((stage3_targetsD files).foldl
          (fun m p => dictInsert m p.1 p.2) [("ref", r)])) := by
  have hne : files ≠ [] := by
    intro hnil
    subst hnil
    have hr0 : stage3_refs ([] : List (String × Except Unit String)) = [] := rfl
    rw [hr0] at h
    cases h
  unfold stage3_main
  rw [isEmpty_false_of_ne_nil hne]
  simp only [Bool.false_eq_true, if_false]
  rw [h]
  unfold stage3_msa
  rw [h]

/-- Witness for the amended C2 at the inconsistent pair of files. -/
theorem stage3_merges_despite_inconsistency_witness :
    stage3_main exFilesInc =
      some ("aligned.msa.fasta",
        writeMsa ((stage3_targetsD exFilesInc).foldl
          (fun m p => dictInsert m p.1 p.2) [("ref", "AA")])) :=
  stage3_merges_despite_inconsistency exFilesInc "AA" ["CC"] (by decide) (by decide)

/-- C3: when the reference file exists and at least one other `.pdb` file
is present, stage 1 loads every non-reference structure, invokes the CE
alignment of the reference against it, and ends the run by saving exactly
one session file, `alignment.pse`. -/
theorem stage1_aligns_every_target_and_saves (files : List String)
    (ce : String → Except String Unit)
    (h1 : "ref.pdb" ∈ files) (h2 : stage1_targets files ≠ []) :
    (∀ t ∈ stage1_targets files,
      Ev.load t ∈ stage1_trace files ce ∧ Ev.cealign "ref" t ∈ stage1_trace files ce) ∧
    (stage1_trace files ce).getLast? = some (Ev.saveSession "alignment.pse") ∧
    (stage1_trace files ce).filter (fun e => decide (e = Ev.saveSession "alignment.pse")) =
      [Ev.saveSession "alignment.pse"] := by
  rw [stage1_trace_eq h1 h2]
  refine ⟨?_, ?_, ?_⟩
  · intro t ht
    constructor
    · apply List.mem_append_left
      apply List.mem_append_right
      exact List.mem_flatMap.mpr ⟨t, ht, by unfold stage1_item; cases ce t <;> simp⟩
    · apply List.mem_append_left
      apply List.mem_append_right
      exact List.mem_flatMap.mpr ⟨t, ht, by unfold stage1_item; cases ce t <;> simp⟩
  · exact List.getLast?_concat _
  · rw [List.filter_append, List.filter_append, stage1_flatMap_no_save]
    rfl

/-- Witness for C3 on a folder with a reference and two targets. -/
theorem stage1_aligns_every_target_and_saves_witness :
    (∀ t ∈ stage1_targets exPdbFiles,
      Ev.load t ∈ stage1_trace exPdbFiles exCeOk ∧
        Ev.cealign "ref" t ∈ stage1_trace exPdbFiles exCeOk) ∧
    (stage1_trace exPdbFiles exCeOk).getLast? = some (Ev.saveSession "alignment.pse") ∧
    (stage1_trace exPdbFiles exCeOk).filter
        (fun e => decide (e = Ev.saveSession "alignment.pse")) =
      [Ev.saveSession "alignment.pse"] :=
  stage1_aligns_every_target_and_saves exPdbFiles exCeOk (by decide) (by decide)

/-- C4 counterexample: in `exSession` the first target's extraction raises
the sort `TypeError`, the run aborts (stage 2's main returns the
exception, its trace shows no file written), yet the second target's
extraction would have succeeded — so a per-item failure can abort the run
and prevent the remaining outputs. -/
theorem log_and_continue_cx :
    stage2_main exSession = Except.error PyErr.typeError ∧
    extract_aligned_sequence exSession "t2" = Except.ok (some ("A", "G")) ∧
    stage2_trace exSession = [Ev.openToolkit, Ev.load "session"] :=
  ⟨by decide, by decide, by decide⟩

/-- C4 amended: the three handled per-item failure paths are
log-and-continue — a raised `cealign` in stage 1 still leaves every other
target aligned and the session saved, a stage 2 extraction that returns
`None, None` is skipped, and a stage 3 file that fails to read or has an
unexpected shape is skipped — but an uncaught exception inside stage 2's
extraction (the mixed-key sort `TypeError`) aborts the run instead. -/
theorem log_and_continue_handled_paths :
    (∀ (files : List String) (ce : String → Except String Unit) (t msg : String),
      "ref.pdb" ∈ files → t ∈ stage1_targets files → ce t = Except.error msg →
      Ev.saveSession "alignment.pse" ∈ stage1_trace files ce ∧
        ∀ u ∈ stage1_targets files, Ev.cealign "ref" u ∈ stage1_trace files ce) ∧
    (∀ (s : Session) (t : String) (ts : List String),
      extract_aligned_sequence s t = Except.ok none →
      stage2_files s (t :: ts) = stage2_files s ts) ∧
    (∀ (f : String × Except Unit String) (files : List (String × Except Unit String)),
      fileSkipped f = true → stage3_main (f :: files) = stage3_main files) := by
  refine ⟨?_, ?_, ?_⟩
  · intro files ce t msg h1 ht hce
    have h2 : stage1_targets files ≠ [] := List.ne_nil_of_mem ht
    rw [stage1_trace_eq h1 h2]
    constructor
    · apply List.mem_append_right
      simp
    · intro u hu
      apply List.mem_append_left
      apply List.mem_append_right
      exact List.mem_flatMap.mpr ⟨u, hu, by unfold stage1_item; cases ce u <;> simp⟩
  · intro s t ts h
    exact stage2_files_skip h
  · intro f files h
    exact stage3_main_skip h

/-- Witness for the amended C4: a failing `cealign` on target `a`, a
missing object in stage 2, and an unreadable stage 3 file are all
skipped. -/
theorem log_and_continue_handled_paths_witness :
    (Ev.saveSession "alignment.pse" ∈ stage1_trace exPdbFiles exCeFail ∧
      ∀ u ∈ stage1_targets exPdbFiles, Ev.cealign "ref" u ∈ stage1_trace exPdbFiles exCeFail) ∧
    stage2_files okSession ("ghost" :: []) = stage2_files okSession [] ∧
    stage3_main (exBadFile :: exFilesInc) = stage3_main exFilesInc :=
  ⟨log_and_continue_handled_paths.1 exPdbFiles exCeFail "a" "ExecutiveAlign failed"
      (by decide) (by decide) (by decide),
   log_and_continue_handled_paths.2.1 okSession "ghost" [] (by decide),
   log_and_continue_handled_paths.2.2 exBadFile exFilesInc (by decide)⟩

/-- C5: on any session objects the reference and target resolve to,
stage 2's per-target computation equals the composition of the
spatial-threshold filter, the `(chain, resi)` sort, and the per-residue
fixed-table lookup applied to the positionwise pairing of the two sorted
selections — no other transformation. -/
theorem stage2_is_filter_sort_lookup (s : Session) (t : String) (refO tgtO : List Atom)
    (href : getObj s "ref" = some refO) (htgt : getObj s t = some tgtO) :
    extract_aligned_sequence s t = stage2_spec_pipeline refO tgtO :=
  extract_eq_spec_pipeline href htgt

/-- Witness for C5 on a two-object session. -/
theorem stage2_is_filter_sort_lookup_witness :
    extract_aligned_sequence okSession "t" =
      stage2_spec_pipeline [⟨"CA", "A", "1", "ALA", 0, 0, 0⟩]
        [⟨"CA", "A", "1", "GLY", 0, 0, 1⟩] :=
  stage2_is_filter_sort_lookup okSession "t"
    [⟨"CA", "A", "1", "ALA", 0, 0, 0⟩] [⟨"CA", "A", "1", "GLY", 0, 0, 1⟩]
    (by decide) (by decide)

/-- C6: the residue-code lookup is total with fallback: an upper-cased
code outside the 20-entry table maps to the unknown marker `'X'`, and a
code in the table maps to its one-letter value. -/
theorem three_to_one_lookup_total (code : String) :
    (code ∉ THREE_TO_ONE.map Prod.fst → threeToOneGet code = 'X') ∧
    (∀ c : Char, (code, c) ∈ THREE_TO_ONE → threeToOneGet code = c) := by
  constructor
  · intro h
    unfold threeToOneGet
    rw [lookupStr_eq_none THREE_TO_ONE code h]
    rfl
  · intro c hc
    unfold threeToOneGet
    rw [lookupStr_of_mem THREE_TO_ONE code c (by decide) hc]
    rfl

/-- Witness for C6: the non-standard code `SEC` maps to `'X'`, the
standard code `ALA` maps to `'A'`. -/
theorem three_to_one_lookup_total_witness :
    threeToOneGet "SEC" = 'X' ∧ threeToOneGet "ALA" = 'A' :=
  ⟨(three_to_one_lookup_total "SEC").1 (by decide),
   (three_to_one_lookup_total "ALA").2 'A' (by decide)⟩

/-- C7: when extraction succeeds, the two written sequences have equal
length, namely the minimum of the sizes of the two threshold selections;
the surplus atoms of the larger selection are excluded. -/
theorem stage2_fasta_equal_lengths (s : Session) (t : String) (refO tgtO : List Atom)
    (r g : String) (href : getObj s "ref" = some refO) (htgt : getObj s t = some tgtO)
    (hex : extract_aligned_sequence s t = Except.ok (some (r, g))) :
    r.length = g.length ∧
      r.length = min (withinCA refO tgtO distance_threshold).length
        (withinCA tgtO refO distance_threshold).length :=
  extract_ok_lengths href htgt hex

/-- Witness for C7 on a two-object session. -/
theorem stage2_fasta_equal_lengths_witness :
    ("A" : String).length = ("G" : String).length ∧
      ("A" : String).length =
        min (withinCA [⟨"CA", "A", "1", "ALA", 0, 0, 0⟩]
              [⟨"CA", "A", "1", "GLY", 0, 0, 1⟩] distance_threshold).length
          (withinCA [⟨"CA", "A", "1", "GLY", 0, 0, 1⟩]
              [⟨"CA", "A", "1", "ALA", 0, 0, 0⟩] distance_threshold).length :=
  stage2_fasta_equal_lengths okSession "t"
    [⟨"CA", "A", "1", "ALA", 0, 0, 0⟩] [⟨"CA", "A", "1", "GLY", 0, 0, 1⟩]
    "A" "G" (by decide) (by decide) (by decide)

/-- C8: if the reference selection for a target contains two atoms of the
same chain, one with a numeric and one with a non-numeric residue
identifier, the sort comparison raises `TypeError` inside
`extract_aligned_sequence`, and the exception propagates out of stage 2's
main loop, aborting the run instead of being logged and skipped. -/
theorem mixed_resi_sort_aborts_run (s : Session) (t : String) (refO tgtO : List Atom)
    (a b : Atom) (href : getObj s "ref" = some refO) (htgt : getObj s t = some tgtO)
    (ha : a ∈ withinCA refO tgtO distance_threshold)
    (hb : b ∈ withinCA refO tgtO distance_threshold)
    (hchain : a.chain = b.chain) (hak : keyTy a = true) (hbk : keyTy b = false)
    (hts : withinCA tgtO refO distance_threshold ≠ [])
    (hmem : t ∈ stage2_targets s) :
    extract_aligned_sequence s t = Except.error PyErr.typeError ∧
      ∃ e, stage2_main s = Except.error e := by
  have hex := extract_error_of_mixed href htgt ha hb hchain
    (by rw [hak, hbk]; exact fun h => Bool.noConfusion h) hts
  exact ⟨hex, stage2_files_error hmem hex⟩

/-- Witness for C8 on the session whose reference holds residues `1` and
`2A` in chain `A`. -/
theorem mixed_resi_sort_aborts_run_witness :
    extract_aligned_sequence exSession "t1" = Except.error PyErr.typeError ∧
      ∃ e, stage2_main exSession = Except.error e :=
  mixed_resi_sort_aborts_run exSession "t1" [atomRefNum, atomRefIns]
    [⟨"CA", "A", "1", "ALA", 0, 0, 1⟩, ⟨"CA", "A", "2", "GLY", 100, 0, 1⟩]
    atomRefNum atomRefIns
    (by decide) (by decide) (by decide) (by decide) (by decide) (by decide)
    (by decide) (by decide) (by decide)

/-- C9 counterexample: on a non-empty input, stage 3 performs its work —
it reads its files and writes the merged MSA — without ever opening a
toolkit session, so not every script opens the toolkit before its work. -/
theorem stage3_no_toolkit_cx :
    Ev.openToolkit ∉ stage3_trace exFilesInc ∧
    Ev.writeFile "aligned.msa.fasta" ∈ stage3_trace exFilesInc :=
  ⟨by decide, by decide⟩

/-- C9 amended: stages 1 and 2 open the PyMOL session as their first
external call before any per-item work; stage 3 performs plain file I/O
and never opens a toolkit session. -/
theorem toolkit_session_usage :
    (∀ (files : List String) (ce : String → Except String Unit),
      "ref.pdb" ∈ files → stage1_targets files ≠ [] →
      (stage1_trace files ce).head? = some Ev.openToolkit) ∧
    (∀ s : Session, (stage2_trace s).head? = some Ev.openToolkit) ∧
    (∀ files : List (String × Except Unit String),
      Ev.openToolkit ∉ stage3_trace files) := by
  refine ⟨?_, ?_, ?_⟩
  · intro files ce h1 h2
    rw [stage1_trace_eq h1 h2]
    rfl
  · intro s
    rfl
  · intro files
    unfold stage3_trace
    by_cases hf : files.isEmpty = true
    · rw [if_pos hf]
      simp
    · rw [if_neg hf]
      intro hmem
      rw [List.mem_append] at hmem
      rcases hmem with hm | hm
      · rcases List.mem_map.mp hm with ⟨f, _, hfe⟩
        cases hfe
      · cases hre : stage3_refs files with
        | nil =>
          rw [hre] at hm
          cases hm
        | cons r rs =>
          rw [hre] at hm
          exact Ev.noConfusion (List.mem_singleton.mp hm)

/-- Witness for the amended C9 on concrete inputs for all three stages. -/
theorem toolkit_session_usage_witness :
    (stage1_trace exPdbFiles exCeOk).head? = some Ev.openToolkit ∧
    (stage2_trace okSession).head? = some Ev.openToolkit ∧
    Ev.openToolkit ∉ stage3_trace exFilesInc :=
  ⟨toolkit_session_usage.1 exPdbFiles exCeOk (by decide) (by decide),
   toolkit_session_usage.2.1 okSession,
   toolkit_session_usage.2.2 exFilesInc⟩

/-- C10 counterexample: the dictionary with header `ref` and sequence
`" A"` satisfies every condition the claim states (non-empty distinct
stripped headers without a leading `'>'`, single-line sequences not
starting with `'>'`), yet parsing the written file strips the sequence,
so the round trip returns a different dictionary. -/
theorem parse_fasta_roundtrip_cx :
    ("ref" ≠ "" ∧ pyStrip "ref" = "ref" ∧ startsWithGt "ref" = false ∧
      startsWithGt " A" = false ∧
      (" A").data.all (fun c => !isPyLineBreak c) = true) ∧
    parse_fasta (writeMsa [("ref", " A")]) = [("ref", "A")] ∧
    parse_fasta (writeMsa [("ref", " A")]) ≠ [("ref", " A")] :=
  ⟨by decide, by decide, by decide⟩

/-- C10 amended: for headers that are non-empty, pairwise distinct, fixed
by `strip`, free of a leading `'>'` and of line breaks, and sequences that
are additionally fixed by `strip` (no leading or trailing whitespace),
`parse_fasta` is a left inverse of the stage 3 writer; and for a file with
a duplicated header, `parse_fasta` keeps only the last occurrence. -/
theorem parse_fasta_roundtrip :
    (∀ msa : List (String × String), (msa.map Prod.fst).Nodup →
      (∀ p ∈ msa, goodHeader p.1 ∧ goodSeq p.2) →
      parse_fasta (writeMsa msa) = msa) ∧
    (∀ h s1 s2 : String, goodHeader h → goodSeq s1 → goodSeq s2 →
      parse_fasta (writeMsa [(h, s1), (h, s2)]) = [(h, s2)]) := by
  constructor
  · intro msa hnd hg
    rw [parse_writeMsa msa hg]
    rw [dictFold_nodup msa [] hnd (fun k _ hk => by cases hk)]
    rw [List.nil_append]
  · intro h s1 s2 hh h1 h2
    rw [parse_writeMsa [(h, s1), (h, s2)] (by
      intro p hp
      rcases List.mem_cons.mp hp with rfl | hp2
      · exact ⟨hh, h1⟩
      · rcases List.mem_singleton.mp hp2 with rfl
        exact ⟨hh, h2⟩)]
    show dictFold [] [(h, s1), (h, s2)] = [(h, s2)]
    unfold dictFold
    simp only [List.foldl_cons, List.foldl_nil]
    have e1 : dictInsert ([] : List (String × String)) h s1 = [(h, s1)] := rfl
    rw [e1]
    unfold dictInsert
    rw [if_pos (by simp)]
    simp

/-- Witness for the amended C10: a distinct-header round trip and a
duplicate-header last-wins parse. -/
theorem parse_fasta_roundtrip_witness :
    parse_fasta (writeMsa [("ref", "AG"), ("t1", "GA")]) = [("ref", "AG"), ("t1", "GA")] ∧
    parse_fasta (writeMsa [("x", "A"), ("x", "B")]) = [("x", "B")] :=
  ⟨parse_fasta_roundtrip.1 [("ref", "AG"), ("t1", "GA")] (by decide) (by decide),
   parse_fasta_roundtrip.2 "x" "A" "B" (by decide) (by decide) (by decide)⟩
